import Mathlib

/-!
# Verification of the module-compilation core (async modules & ESM references)

A shallow embedding of the two source files

* `crates/turbopack-ecmascript/src/references/esm/base.rs`
* `crates/turbopack-ecmascript/src/references/async_module.rs`

together with theorems checking the natural-language specification's claims
about them.  External collaborators (the resolver, the memoizing cache, the
chunking context, `magic_identifier::mangle`, `turbopack-core`'s resolve-result
type) are modelled as explicit data or function parameters, following the
spec's description of their narrow interfaces.
-/

namespace Turbo

/-! ## Generic list helpers mirroring the Rust iterator/vector operations -/

/-- First index at which `p` holds, mirroring Rust's `Iterator::position`. -/
def listPosition {α : Type} (p : α → Bool) : List α → Option Nat
  | [] => none
  | x :: xs => if p x then some 0 else (listPosition p xs).map (· + 1)

/-- Rust's `Vec::insert(n, a)`: insert `a` immediately before index `n`. -/
def listInsertAt {α : Type} (l : List α) (n : Nat) (a : α) : List α :=
  l.take n ++ a :: l.drop n

/-- Helper for `indexSetFromIter`: drops elements already `seen`, in order. -/
def indexSetGo {α : Type} [DecidableEq α] : List α → List α → List α
  | _, [] => []
  | seen, x :: xs =>
    if x ∈ seen then indexSetGo seen xs else x :: indexSetGo (x :: seen) xs

/-- `IndexSet::from_iter`: deduplicate, keeping only the first occurrence of
each element and preserving the order of those first occurrences. -/
def indexSetFromIter {α : Type} [DecidableEq α] (l : List α) : List α :=
  indexSetGo [] l

/-! ## Identifier mangling (external collaborator) -/

/-- Modelled from the spec: `magic_identifier::mangle` (a sibling module, not
under `src/`) deterministically encodes a descriptive label into a
syntactically valid synthetic identifier; same label, same identifier.  The
claims depend only on the encoding being a deterministic function of the
label, so a simple concrete encoding is used here. -/
def mangle (label : String) : String :=
  "__TURBOPACK__" ++ label ++ "__"

/-- `ESM_HOISTING_LOCATION`: the process-wide reserved marker value,
`mangle "ecmascript hoisting location"` (esm/base.rs, `lazy_static`). -/
def ESM_HOISTING_LOCATION : String :=
  mangle "ecmascript hoisting location"

/-! ## External data model: chunk items, module handles, resolve results -/

/-- `turbopack_core::chunk::ModuleId`: the id assigned to a chunk item,
either a string or a number. -/
inductive ModuleId : Type
  | String (s : String)
  | Number (n : Nat)
deriving DecidableEq

/-- A handle to an `EcmascriptChunkPlaceable` (the chunkable-module
capability).  `id` is the handle's identity used for chunk-item
materialization; `identStr` is `asset.ident().to_string()`, the
fully-qualified identity string used for identifier mangling. -/
structure EcmascriptChunkPlaceable : Type where
  id : Nat
  identStr : String
deriving DecidableEq

/-- A resolved module handle.  Modelled from the spec:
`Vc::try_resolve_downcast::<Box<dyn EcmascriptChunkPlaceable>>` is an external
capability check (turbo-tasks, outside `src/`); its outcome is recorded on the
handle as an optional capability. -/
structure ModuleHandle : Type where
  placeable : Option EcmascriptChunkPlaceable
deriving DecidableEq

/-- The external capability check: downcast a module handle to the
chunkable-module capability. -/
def try_resolve_downcast (module : ModuleHandle) : Option EcmascriptChunkPlaceable :=
  module.placeable

/-- `ModuleResolveResultItem` (turbopack-core, outside `src/`).  Modelled from
the spec: each keyed entry is one of a resolved module handle, an
external-module marker carrying the literal request string, an ignored entry,
or an unresolvable marker.  The source file's scan matches on the first two
variants and skips everything else with a catch-all arm. -/
inductive ModuleResolveResultItem : Type
  | Module (module : ModuleHandle)
  | OriginalReferenceTypeExternal (request : String)
  | Ignore
  | Unresolveable
deriving DecidableEq

/-- `ModuleResolveResult` (turbopack-core, outside `src/`): the ordered keyed
`primary` entries the classifier scans, plus — modelled from the spec —
whether the result reports the reference unresolvable
(`ModuleResolveResult::is_unresolveable`, which `code_generation` consults
through `is_unresolveable_ref`). -/
structure ModuleResolveResult : Type where
  primary : List (String × ModuleResolveResultItem)
  unresolveable : Bool
deriving DecidableEq

/-! ## `ReferencedAsset` — the reference classifier (esm/base.rs 34-89) -/

/-- `ReferencedAsset`: the three-way asset classification. -/
inductive ReferencedAsset : Type
  | Some (placeable : EcmascriptChunkPlaceable)
  | OriginalReferenceTypeExternal (request : String)
  | None
deriving DecidableEq

/-- `ReferencedAsset::get_ident` (esm/base.rs 42-60), with
`get_ident_from_placeable` inlined: mangle `"imported module " + ident` for an
internal target, `"external " + request` for an external one, nothing for an
unclassified reference. -/
def ReferencedAsset.get_ident : ReferencedAsset → Option String
  | .Some asset => some (mangle ("imported module " ++ asset.identStr))
  | .OriginalReferenceTypeExternal request => some (mangle ("external " ++ request))
  | .None => none

/-- The scan loop of `ReferencedAsset::from_resolve_result` (esm/base.rs
66-88): walk the primary entries in order; return on the first external
marker; return on the first module handle that downcasts to the
chunkable-module capability; skip everything else; `None` if exhausted. -/
def ReferencedAsset.fromPrimary :
    List (String × ModuleResolveResultItem) → ReferencedAsset
  | [] => .None
  | (_, item) :: rest =>
    match item with
    | .OriginalReferenceTypeExternal request => .OriginalReferenceTypeExternal request
    | .Module module =>
      match try_resolve_downcast module with
      | some placeable => .Some placeable
      | none => ReferencedAsset.fromPrimary rest
    | _ => ReferencedAsset.fromPrimary rest

/-- `ReferencedAsset::from_resolve_result` (esm/base.rs 66-88). -/
def ReferencedAsset.from_resolve_result (resolve_result : ModuleResolveResult) :
    ReferencedAsset :=
  ReferencedAsset.fromPrimary resolve_result.primary

/-! ## `EsmAssetReference` — the import reference (esm/base.rs 91-190) -/

/-- The two accessors of `ImportAnnotations` that esm/base.rs reads:
`transition()` and `chunking_type()`. -/
structure ImportAnnotations : Type where
  transition : Option String
  chunking_type : Option String
deriving DecidableEq

/-- `EsmAssetReference` (esm/base.rs 91-100): a persistent, structurally
hashable descriptor of one static import edge.  `origin` and `issue_source`
are opaque handles. -/
structure EsmAssetReference : Type where
  origin : Nat
  request : String
  annotations : ImportAnnotations
  issue_source : Option Nat
  export_name : Option String
  import_externals : Bool
deriving DecidableEq

/-- The arguments `resolve_reference` (esm/base.rs 144-159) passes to the
external resolver `esm_resolve`: the origin (with the transition annotation
applied by `get_origin`), the request, the reference subtype derived from
`export_name`, and the diagnostic source.  The chunking-type annotation is
not part of this key. -/
structure ResolutionKey : Type where
  origin : Nat
  transition : Option String
  request : String
  export_name : Option String
  issue_source : Option Nat
deriving DecidableEq

/-- The resolution key of a reference (see `ResolutionKey`). -/
def EsmAssetReference.resolutionKey (this : EsmAssetReference) : ResolutionKey :=
  ⟨this.origin, this.annotations.transition, this.request, this.export_name,
    this.issue_source⟩

/-- `EsmAssetReference::resolve_reference` (esm/base.rs 144-159): ask the
external resolver (passed explicitly, per the spec's interface) for this
reference's resolve result. -/
def EsmAssetReference.resolve_reference (this : EsmAssetReference)
    (resolver : ResolutionKey → ModuleResolveResult) : ModuleResolveResult :=
  resolver this.resolutionKey

/-- `EsmAssetReference::get_referenced_asset` (esm/base.rs 137-140): resolve,
then classify. -/
def EsmAssetReference.get_referenced_asset (this : EsmAssetReference)
    (resolver : ResolutionKey → ModuleResolveResult) : ReferencedAsset :=
  ReferencedAsset.from_resolve_result (this.resolve_reference resolver)

/-- The chunking-type variant this file produces
(`turbopack_core::chunk::ChunkingType`; only `ParallelInheritAsync` occurs in
the source under `src/`).  `chunking_type` returning `none` means the
reference is excluded from chunking (the spec's `Excluded` policy). -/
inductive ChunkingType : Type
  | ParallelInheritAsync
deriving DecidableEq

/-- `EsmAssetReference::chunking_type` (esm/base.rs 174-190): absent
annotation or `"parallel"` map to `ParallelInheritAsync`; `"none"` maps to no
chunking type (the `Excluded` policy); any other literal is a configuration
error echoing the literal. -/
def EsmAssetReference.chunking_type (this : EsmAssetReference) :
    Except String (Option ChunkingType) :=
  match this.annotations.chunking_type with
  | some ct =>
    if ct = "parallel" then .ok (some .ParallelInheritAsync)
    else if ct = "none" then .ok none
    else .error ("unknown chunking_type: " ++ ct)
  | none => .ok (some .ParallelInheritAsync)

/-- The chunking-context interface consumed by the source (spec §6): the
environment capability query for external requires, per-module chunk-item
materialization (`as_chunk_item`, keyed by the placeable handle), and
chunk-item id assignment. -/
structure EcmascriptChunkingContext : Type where
  supports_commonjs_externals : Bool
  as_chunk_item : Nat → Nat
  chunk_item_id : Nat → ModuleId

/-! ## The program AST and the hoisting utility (esm/base.rs 284-354) -/

/-- The statement forms this core distinguishes: a string-literal expression
statement (the marker shape the hoist point is recognized by), the five
synthesized statement shapes, and an opaque constructor for every other
statement, tagged so that structural equality is meaningful. -/
inductive Stmt : Type
  | exprStrLit (value : String)
  | varTurbopackImport (name : String) (id : ModuleId)
  | varExternalImport (name : String) (request : String)
  | varExternalRequire (name : String) (request : String)
  | throwModuleNotFound (request : String)
  | other (tag : Nat)
deriving DecidableEq

/-- A structured-module body item: a plain statement or an (opaque) module
declaration; the marker scan only looks inside `Stmt` items. -/
inductive ModuleItem : Type
  | Stmt (stmt : Stmt)
  | ModuleDecl (tag : Nat)
deriving DecidableEq

/-- `swc` `Program`: a structured module or a flat script. -/
inductive Program : Type
  | Module (body : List ModuleItem)
  | Script (body : List Stmt)
deriving DecidableEq

/-- The reserved marker statement: a string-literal expression statement
holding `ESM_HOISTING_LOCATION`. -/
def markerStmt : Stmt :=
  Stmt.exprStrLit ESM_HOISTING_LOCATION

/-- The marker test of esm/base.rs 329-339: an expression statement whose
expression is a string literal equal to `ESM_HOISTING_LOCATION`. -/
def isMarkerStmt : Stmt → Bool
  | .exprStrLit value => decide (value = ESM_HOISTING_LOCATION)
  | _ => false

/-- The marker test of esm/base.rs 293-303, on module items. -/
def isMarkerModuleItem : ModuleItem → Bool
  | .Stmt s => isMarkerStmt s
  | _ => false

/-- The duplicate test of esm/base.rs 305-311: a module item that is a plain
statement structurally equal to `stmt`. -/
def stmtEqItem (stmt : Stmt) : ModuleItem → Bool
  | .Stmt s => decide (s = stmt)
  | _ => false

/-- `insert_hoisted_stmt` (esm/base.rs 290-354).  Module path: find the first
marker; if found, insert before it unless a structurally-equal statement
already occurs among the items before the marker; if absent, splice
`[stmt, marker]` at the front.  Script path: if the marker is found, insert at
its position with no duplicate check; if absent, insert the marker at the
front and then the statement at the front. -/
def insert_hoisted_stmt (program : Program) (stmt : Stmt) : Program :=
  match program with
  | .Module body =>
    match listPosition isMarkerModuleItem body with
    | some pos =>
      if (body.take pos).any (stmtEqItem stmt) then .Module body
      else .Module (listInsertAt body pos (.Stmt stmt))
    | none => .Module (.Stmt stmt :: .Stmt markerStmt :: body)
  | .Script body =>
    match listPosition isMarkerStmt body with
    | some pos => .Script (listInsertAt body pos stmt)
    | none => .Script (stmt :: markerStmt :: body)

/-! ## Per-reference code generation (esm/base.rs 192-282) -/

/-- `CodeGeneration`: the list of program mutations produced for one
reference or descriptor; each visitor of the source hoists exactly one
statement, recorded here as that statement. -/
structure CodeGeneration : Type where
  visitors : List Stmt
deriving DecidableEq

/-- Modelled from the spec: `request_to_string` (references/util.rs, outside
`src/`) renders a request back into the literal import specifier string.
Requests are modelled here by their literal specifier, so it is the
identity. -/
def request_to_string (request : String) : String :=
  request

/-- `EsmAssetReference::code_generation` (esm/base.rs 192-282), with the
external resolver passed explicitly.  Evaluation order is the source's:
the chunking type is computed first (its configuration error propagates), the
unresolvable check produces the single throw mutation and returns, an excluded
(`none`) chunking type produces nothing, and otherwise the classification
decides between the internal import, the external import/require (guarded by
the environment capability), or nothing. -/
def EsmAssetReference.code_generation (this : EsmAssetReference)
    (resolver : ResolutionKey → ModuleResolveResult)
    (chunking_context : EcmascriptChunkingContext) : Except String CodeGeneration :=
  match this.chunking_type with
  | .error e => .error e
  | .ok chunking_type =>
    let resolved := this.resolve_reference resolver
    if resolved.unresolveable then
      .ok ⟨[Stmt.throwModuleNotFound (request_to_string this.request)]⟩
    else if chunking_type.isSome then
      let referenced_asset := ReferencedAsset.from_resolve_result resolved
      match referenced_asset.get_ident with
      | some ident =>
        match referenced_asset with
        | .Some asset =>
          let id := chunking_context.chunk_item_id (chunking_context.as_chunk_item asset.id)
          .ok ⟨[Stmt.varTurbopackImport ident id]⟩
        | .OriginalReferenceTypeExternal request =>
          if !chunking_context.supports_commonjs_externals then
            .error ("the chunking context does not support external modules (request: "
              ++ request ++ ")")
          else if this.import_externals then
            .ok ⟨[Stmt.varExternalImport ident request]⟩
          else
            .ok ⟨[Stmt.varExternalRequire ident request]⟩
        | .None => .ok ⟨[]⟩
      | none => .ok ⟨[]⟩
    else .ok ⟨[]⟩

/-! ## `AsyncModule` — the async-module descriptor (async_module.rs) -/

/-- `AsyncModuleOptions` (async_module.rs 22-25). -/
structure AsyncModuleOptions : Type where
  has_top_level_await : Bool
deriving DecidableEq

/-- `AsyncModule` (async_module.rs 44-50).  `references` is the descriptor's
`IndexSet<Vc<EsmAssetReference>>`: ordered, first-seen insertion order. -/
structure AsyncModule : Type where
  placeable : Nat
  references : List EsmAssetReference
  has_top_level_await : Bool
  import_externals : Bool

/-- `AsyncModule::get_async_idents` (async_module.rs 82-124): map each
reference to its classification; an external reference contributes its ident
when the module's `import_externals` policy is set; an internal reference
contributes its ident when its chunk item (materialized under the chunking
context) is in the graph-wide async set (`AsyncModuleInfo
::referenced_async_modules`, modelled as a list of chunk items); the flat-join
drops the `none`s and `IndexSet::from_iter` keeps first occurrences. -/
def AsyncModule.get_async_idents (self : AsyncModule)
    (resolver : ResolutionKey → ModuleResolveResult)
    (chunking_context : EcmascriptChunkingContext)
    (async_module_info : List Nat) : List String :=
  let reference_idents := self.references.filterMap (fun r =>
    let referenced_asset := r.get_referenced_asset resolver
    match referenced_asset with
    | .OriginalReferenceTypeExternal _ =>
      if self.import_externals then referenced_asset.get_ident else none
    | .Some placeable =>
      let chunk_item := chunking_context.as_chunk_item placeable.id
      if async_module_info.contains chunk_item then referenced_asset.get_ident
      else none
    | .None => none)
  indexSetFromIter reference_idents

/-- `AsyncModule::is_self_async` (async_module.rs 126-149): true on the
module's own top-level-await flag, else `import_externals` and some reference
classifying as external. -/
def AsyncModule.is_self_async (self : AsyncModule)
    (resolver : ResolutionKey → ModuleResolveResult) : Bool :=
  if self.has_top_level_await then true
  else
    self.import_externals &&
      ((self.references.map (fun r =>
        match r.get_referenced_asset resolver with
        | .OriginalReferenceTypeExternal _ => true
        | _ => false)).any (fun b => b))

/-- `AsyncModule::module_options` (async_module.rs 151-164): none when no
graph-wide async set was supplied, else exactly the descriptor's own
top-level-await flag. -/
def AsyncModule.module_options (self : AsyncModule)
    (async_module_info : Option (List Nat)) : Option AsyncModuleOptions :=
  if async_module_info.isNone then none
  else some ⟨self.has_top_level_await⟩

/-! ## Claim-side definitions (transcribed from the spec's words, for
refinement statements) -/

/-- Transcribed from the claim: a reference's classification qualifies for the
async-ident set iff it is External and the `import_externals` policy is true,
or it is Internal and the target's chunk item under the chunking context is a
member of the graph-wide async set. -/
def claimIncludes (import_externals : Bool)
    (chunking_context : EcmascriptChunkingContext) (async_module_info : List Nat) :
    ReferencedAsset → Bool
  | .OriginalReferenceTypeExternal _ => import_externals
  | .Some placeable =>
    async_module_info.contains (chunking_context.as_chunk_item placeable.id)
  | .None => false

/-- Transcribed from the claim: a classification's contribution to the
async-ident set is its derived identifier exactly when the inclusion rule
(`claimIncludes`) holds, else nothing. -/
def claimIdent (import_externals : Bool)
    (chunking_context : EcmascriptChunkingContext) (async_module_info : List Nat)
    (ra : ReferencedAsset) : Option String :=
  match ra.get_ident with
  | some ident =>
    if claimIncludes import_externals chunking_context async_module_info ra
    then some ident else none
  | none => none

/-- Transcribed from the claim: classify every reference in insertion order,
keep the derived identifier of exactly the qualifying ones, and collapse
duplicates to their first occurrence. -/
def asyncIdentsClaim (self : AsyncModule)
    (resolver : ResolutionKey → ModuleResolveResult)
    (chunking_context : EcmascriptChunkingContext)
    (async_module_info : List Nat) : List String :=
  indexSetFromIter
    ((self.references.map (fun r => r.get_referenced_asset resolver)).filterMap
      (claimIdent self.import_externals chunking_context async_module_info))

/-- Replace a reference's chunking-type annotation (all other fields kept). -/
def setChunkingType (r : EsmAssetReference) (ct : Option String) : EsmAssetReference :=
  { r with annotations := { r.annotations with chunking_type := ct } }

/-- The entry test transcribed from the claim for the classifier: an entry
matches when it is an external marker or a module handle that downcasts to the
chunkable-module capability. -/
def isMatchEntry : String × ModuleResolveResultItem → Bool
  | (_, .OriginalReferenceTypeExternal _) => true
  | (_, .Module module) => (try_resolve_downcast module).isSome
  | _ => false

/-! ## Concrete fixtures evaluated by the witness theorems -/

/-- No import annotations. -/
def annPlain : ImportAnnotations := ⟨none, none⟩

/-- A `chunking_type: "bogus"` annotation. -/
def annBogus : ImportAnnotations := ⟨none, some "bogus"⟩

/-- A reference to `"./missing"`, default annotations. -/
def refMissing : EsmAssetReference := ⟨0, "./missing", annPlain, none, none, false⟩

/-- A reference to `"fs"` with the externals-import policy set. -/
def refFs : EsmAssetReference := ⟨0, "fs", annPlain, none, none, true⟩

/-- A reference annotated `chunking_type: "bogus"`. -/
def refBogus : EsmAssetReference := ⟨0, "./a", annBogus, none, none, false⟩

/-- A resolver snapshot reporting every request unresolvable. -/
def resolverUnresolved : ResolutionKey → ModuleResolveResult := fun _ => ⟨[], true⟩

/-- A resolver snapshot answering every request with an external marker for
`"fs"`. -/
def resolverExternalFs : ResolutionKey → ModuleResolveResult :=
  fun _ => ⟨[("fs", ModuleResolveResultItem.OriginalReferenceTypeExternal "fs")], false⟩

/-- A chunking context whose environment lacks the external-requires
capability. -/
def ctxNoExternals : EcmascriptChunkingContext :=
  ⟨false, fun n => n, fun n => ModuleId.Number n⟩

/-- A descriptor with a top-level await and no references. -/
def mTopLevelAwait : AsyncModule := ⟨0, [], true, false⟩

/-- A descriptor with the same top-level-await flag as `mTopLevelAwait` but
different references, placeable, and externals policy. -/
def mTopLevelAwaitExt : AsyncModule := ⟨5, [refFs], true, true⟩

/-- A descriptor with both flags false but an (external-classifying)
reference. -/
def mQuiet : AsyncModule := ⟨0, [refFs], false, false⟩

/-- A primary entry list whose first match is an external marker sitting after
an ignored entry and a module handle lacking the chunkable capability. -/
def primaryLateExternal : List (String × ModuleResolveResultItem) :=
  [("k0", ModuleResolveResultItem.Ignore),
    ("k1", ModuleResolveResultItem.Module ⟨none⟩),
    ("k2", ModuleResolveResultItem.OriginalReferenceTypeExternal "fs")]

/-! ## Supporting lemmas about the list helpers -/

theorem listPosition_eq_none_of {α : Type} (p : α → Bool) (l : List α)
    (h : ∀ y ∈ l, p y = false) : listPosition p l = none := by
  induction l with
  | nil => rfl
  | cons a as ih =>
    have ha := h a (List.mem_cons_self a as)
    simp [listPosition, ha, ih fun y hy => h y (List.mem_cons_of_mem a hy)]

theorem listPosition_append {α : Type} (p : α → Bool) (pre : List α) (x : α)
    (post : List α) (hpre : ∀ y ∈ pre, p y = false) (hx : p x = true) :
    listPosition p (pre ++ x :: post) = some pre.length := by
  induction pre with
  | nil => simp [listPosition, hx]
  | cons a pre' ih =>
    have ha := hpre a (List.mem_cons_self a pre')
    simp [listPosition, ha, ih fun y hy => hpre y (List.mem_cons_of_mem a hy)]

theorem listPosition_eq_some_split {α : Type} (p : α → Bool) (l : List α) (pos : Nat)
    (h : listPosition p l = some pos) :
    (∀ y ∈ l.take pos, p y = false) ∧
      ∃ x post, p x = true ∧ l.drop pos = x :: post ∧ l = l.take pos ++ x :: post := by
  induction l generalizing pos with
  | nil => simp [listPosition] at h
  | cons a as ih =>
    by_cases hpa : p a = true
    · simp only [listPosition, hpa, if_pos] at h
      obtain rfl : (0 : Nat) = pos := Option.some.inj h
      exact ⟨by simp, a, as, hpa, rfl, by simp⟩
    · have hpa' : p a = false := Bool.eq_false_iff.mpr hpa
      simp only [listPosition, hpa', Bool.false_eq_true, if_false] at h
      rcases Option.map_eq_some'.mp h with ⟨m, hm, hmpos⟩
      obtain rfl : pos = m + 1 := hmpos.symm
      obtain ⟨htake, x, post, hx, hdrop, hdecomp⟩ := ih m hm
      refine ⟨?_, x, post, hx, ?_, ?_⟩
      · intro y hy
        rw [List.take_succ_cons] at hy
        rcases List.mem_cons.mp hy with rfl | hy
        · exact hpa'
        · exact htake y hy
      · simpa [List.drop_succ_cons] using hdrop
      · rw [List.take_succ_cons, List.cons_append]
        exact congrArg (a :: ·) hdecomp

theorem mem_indexSetGo {α : Type} [DecidableEq α] (l : List α) :
    ∀ (seen : List α) (x : α), x ∈ indexSetGo seen l ↔ x ∈ l ∧ x ∉ seen := by
  induction l with
  | nil => intro seen x; simp [indexSetGo]
  | cons a as ih =>
    intro seen x
    by_cases ha : a ∈ seen
    · rw [indexSetGo, if_pos ha, ih seen x]
      constructor
      · rintro ⟨hx, hs⟩; exact ⟨List.mem_cons_of_mem a hx, hs⟩
      · rintro ⟨hx, hs⟩
        rcases List.mem_cons.mp hx with rfl | hx
        · exact absurd ha hs
        · exact ⟨hx, hs⟩
    · rw [indexSetGo, if_neg ha]
      by_cases hxa : x = a
      · subst hxa
        simp [List.mem_cons_self, ha]
      · constructor
        · intro hx
          rcases List.mem_cons.mp hx with rfl | hx
          · exact absurd rfl hxa
          · obtain ⟨h1, h2⟩ := (ih (a :: seen) x).mp hx
            refine ⟨List.mem_cons_of_mem a h1, fun hs => h2 (List.mem_cons_of_mem a hs)⟩
        · rintro ⟨hx, hs⟩
          rcases List.mem_cons.mp hx with rfl | hx
          · exact absurd rfl hxa
          · refine List.mem_cons_of_mem a ((ih (a :: seen) x).mpr ⟨hx, ?_⟩)
            intro hmem
            rcases List.mem_cons.mp hmem with rfl | hmem
            · exact hxa rfl
            · exact hs hmem

theorem nodup_indexSetGo {α : Type} [DecidableEq α] (l : List α) :
    ∀ seen : List α, (indexSetGo seen l).Nodup := by
  induction l with
  | nil => intro seen; simp [indexSetGo]
  | cons a as ih =>
    intro seen
    by_cases ha : a ∈ seen
    · rw [indexSetGo, if_pos ha]; exact ih seen
    · rw [indexSetGo, if_neg ha]
      refine List.nodup_cons.mpr ⟨?_, ih (a :: seen)⟩
      intro hmem
      exact ((mem_indexSetGo as (a :: seen) a).mp hmem).2 (List.mem_cons_self a seen)

theorem nodup_indexSetFromIter {α : Type} [DecidableEq α] (l : List α) :
    (indexSetFromIter l).Nodup :=
  nodup_indexSetGo l []

theorem any_map_id_eq {α : Type} (l : List α) (f : α → Bool) :
    (l.map f).any (fun b => b) = l.any f := by
  induction l with
  | nil => rfl
  | cons a as ih => simp [ih]

/-! ## Supporting lemmas about the marker and duplicate tests -/

theorem isMarkerStmt_iff (s : Stmt) : isMarkerStmt s = true ↔ s = markerStmt := by
  cases s <;> simp [isMarkerStmt, markerStmt]

theorem isMarkerModuleItem_iff (item : ModuleItem) :
    isMarkerModuleItem item = true ↔ item = ModuleItem.Stmt markerStmt := by
  cases item <;> simp [isMarkerModuleItem, isMarkerStmt_iff]

theorem isMarkerModuleItem_stmt_false (stmt : Stmt) (h : stmt ≠ markerStmt) :
    isMarkerModuleItem (ModuleItem.Stmt stmt) = false := by
  cases hb : isMarkerModuleItem (ModuleItem.Stmt stmt)
  · rfl
  · have := (isMarkerModuleItem_iff _).mp hb
    exact absurd (ModuleItem.Stmt.inj this) h

theorem isMarkerStmt_marker : isMarkerStmt markerStmt = true :=
  (isMarkerStmt_iff markerStmt).mpr rfl

theorem stmtEqItem_eq_true (stmt : Stmt) (item : ModuleItem) :
    stmtEqItem stmt item = true ↔ item = ModuleItem.Stmt stmt := by
  cases item <;> simp [stmtEqItem]

theorem any_stmtEqItem_iff (stmt : Stmt) (l : List ModuleItem) :
    l.any (stmtEqItem stmt) = true ↔ ModuleItem.Stmt stmt ∈ l := by
  rw [List.any_eq_true]
  constructor
  · rintro ⟨item, hmem, heq⟩
    rw [(stmtEqItem_eq_true stmt item).mp heq] at hmem
    exact hmem
  · intro hmem
    exact ⟨ModuleItem.Stmt stmt, hmem, (stmtEqItem_eq_true stmt _).mpr rfl⟩

/-! ## Unfolding lemmas for the hoisting utility -/

theorem insert_hoisted_stmt_module_none (body : List ModuleItem) (stmt : Stmt)
    (h : listPosition isMarkerModuleItem body = none) :
    insert_hoisted_stmt (Program.Module body) stmt =
      Program.Module (ModuleItem.Stmt stmt :: ModuleItem.Stmt markerStmt :: body) := by
  simp only [insert_hoisted_stmt, h]

theorem insert_hoisted_stmt_module_dup (body : List ModuleItem) (stmt : Stmt)
    (pos : Nat) (h : listPosition isMarkerModuleItem body = some pos)
    (hdup : (body.take pos).any (stmtEqItem stmt) = true) :
    insert_hoisted_stmt (Program.Module body) stmt = Program.Module body := by
  simp only [insert_hoisted_stmt, h, hdup]
  rfl

theorem insert_hoisted_stmt_module_ins (body : List ModuleItem) (stmt : Stmt)
    (pos : Nat) (h : listPosition isMarkerModuleItem body = some pos)
    (hdup : (body.take pos).any (stmtEqItem stmt) = false) :
    insert_hoisted_stmt (Program.Module body) stmt =
      Program.Module (listInsertAt body pos (ModuleItem.Stmt stmt)) := by
  simp only [insert_hoisted_stmt, h, hdup]
  rfl

theorem insert_hoisted_stmt_script_none (body : List Stmt) (stmt : Stmt)
    (h : listPosition isMarkerStmt body = none) :
    insert_hoisted_stmt (Program.Script body) stmt =
      Program.Script (stmt :: markerStmt :: body) := by
  simp only [insert_hoisted_stmt, h]

theorem insert_hoisted_stmt_script_pos (body : List Stmt) (stmt : Stmt) (pos : Nat)
    (h : listPosition isMarkerStmt body = some pos) :
    insert_hoisted_stmt (Program.Script body) stmt =
      Program.Script (listInsertAt body pos stmt) := by
  simp only [insert_hoisted_stmt, h]

/-! ## Claim theorems -/

/-- C1: `get_async_idents` computes exactly the claim's set — iterate the
references in insertion order, classify each, include the derived identifier
iff the classification is External with the `import_externals` policy set or
Internal with the target's chunk item in the graph-wide async set, and keep
only the first occurrence of each identifier in that order (so the result is
duplicate-free); and the result is invariant under arbitrary rewriting of the
references' chunking-type annotations (an Excluded-policy reference
contributes all the same). -/
theorem asyncModule_get_async_idents_spec (self : AsyncModule)
    (resolver : ResolutionKey → ModuleResolveResult)
    (chunking_context : EcmascriptChunkingContext) (async_module_info : List Nat) :
    self.get_async_idents resolver chunking_context async_module_info =
        asyncIdentsClaim self resolver chunking_context async_module_info ∧
      (self.get_async_idents resolver chunking_context async_module_info).Nodup ∧
      ∀ f : EsmAssetReference → Option String,
        AsyncModule.get_async_idents
            ⟨self.placeable, self.references.map (fun r => setChunkingType r (f r)),
              self.has_top_level_await, self.import_externals⟩
            resolver chunking_context async_module_info =
          self.get_async_idents resolver chunking_context async_module_info := by
  refine ⟨?_, nodup_indexSetFromIter _, fun f => ?_⟩
  · simp only [AsyncModule.get_async_idents, asyncIdentsClaim]
    rw [List.filterMap_map]
    refine congrArg indexSetFromIter (List.filterMap_congr fun r _ => ?_)
    simp only [Function.comp]
    generalize r.get_referenced_asset resolver = ra
    cases ra with
    | Some placeable =>
      by_cases hc :
        async_module_info.contains (chunking_context.as_chunk_item placeable.id) = true
      · simp [hc, claimIdent, ReferencedAsset.get_ident, claimIncludes]
      · simp [Bool.eq_false_iff.mpr hc, claimIdent, ReferencedAsset.get_ident,
          claimIncludes]
    | OriginalReferenceTypeExternal req =>
      cases hie : self.import_externals <;>
        simp [hie, claimIdent, ReferencedAsset.get_ident, claimIncludes]
    | None => simp [claimIdent, ReferencedAsset.get_ident]
  · simp only [AsyncModule.get_async_idents]
    rw [List.filterMap_map]
    exact congrArg indexSetFromIter (List.filterMap_congr fun r _ => rfl)

/-- C2: `is_self_async` is true iff the descriptor's own `has_top_level_await`
flag is set, or its `import_externals` policy is set and some reference
classifies as External under the current resolver snapshot; it is true
whenever `has_top_level_await` holds regardless of references, and false
whenever both flags are false regardless of references.  (It takes no
graph-wide async set at all, so it cannot consult one.) -/
theorem asyncModule_is_self_async_spec (self : AsyncModule)
    (resolver : ResolutionKey → ModuleResolveResult) :
    (self.is_self_async resolver = true ↔
        self.has_top_level_await = true ∨
          (self.import_externals = true ∧
            ∃ r ∈ self.references, ∃ req,
              r.get_referenced_asset resolver =
                ReferencedAsset.OriginalReferenceTypeExternal req)) ∧
      (self.has_top_level_await = true → self.is_self_async resolver = true) ∧
      (self.has_top_level_await = false → self.import_externals = false →
        self.is_self_async resolver = false) := by
  have heq : self.is_self_async resolver =
      (self.has_top_level_await ||
        (self.import_externals &&
          self.references.any (fun r =>
            match r.get_referenced_asset resolver with
            | ReferencedAsset.OriginalReferenceTypeExternal _ => true
            | _ => false))) := by
    cases htla : self.has_top_level_await with
    | true => simp [AsyncModule.is_self_async, htla]
    | false =>
      simp [AsyncModule.is_self_async, htla]
      rw [any_map_id_eq]
  refine ⟨?_, fun h => by rw [heq, h]; simp, fun h1 h2 => by rw [heq, h1, h2]; simp⟩
  rw [heq]
  simp only [Bool.or_eq_true, Bool.and_eq_true, List.any_eq_true]
  constructor
  · rintro (htla | ⟨hie, r, hmem, hr⟩)
    · exact Or.inl htla
    · refine Or.inr ⟨hie, r, hmem, ?_⟩
      revert hr
      cases hra : r.get_referenced_asset resolver with
      | Some placeable => intro hr; simp at hr
      | OriginalReferenceTypeExternal req => intro _; exact ⟨req, rfl⟩
      | None => intro hr; simp at hr
  · rintro (htla | ⟨hie, r, hmem, req, hreq⟩)
    · exact Or.inl htla
    · refine Or.inr ⟨hie, r, hmem, ?_⟩
      rw [hreq]

/-- C2 witness: a descriptor with a top-level await and no references is
self-async; a descriptor with both flags false is not, despite a reference
that classifies as External. -/
theorem asyncModule_is_self_async_spec_witness :
    mTopLevelAwait.is_self_async resolverUnresolved = true ∧
      mQuiet.is_self_async resolverExternalFs = false :=
  ⟨(asyncModule_is_self_async_spec mTopLevelAwait resolverUnresolved).2.1 rfl,
    (asyncModule_is_self_async_spec mQuiet resolverExternalFs).2.2 rfl rfl⟩

/-- C3: `module_options` is none when no graph-wide async set is supplied,
and otherwise is exactly `{has_top_level_await}` from the descriptor's own
flag; it depends on nothing else of the descriptor (in particular not on
`is_self_async` or the external-import contribution, and it holds with zero
references). -/
theorem asyncModule_module_options_spec (self : AsyncModule) :
    self.module_options none = none ∧
      (∀ info : List Nat, self.module_options (some info) =
        some ⟨self.has_top_level_await⟩) ∧
      (∀ other : AsyncModule, other.has_top_level_await = self.has_top_level_await →
        ∀ infoOpt : Option (List Nat),
          other.module_options infoOpt = self.module_options infoOpt) := by
  refine ⟨rfl, fun info => rfl, fun other h infoOpt => ?_⟩
  cases infoOpt <;> simp [AsyncModule.module_options, h]

/-- C3 witness: the options of a descriptor with `has_top_level_await = true`
and a supplied async set are `{has_top_level_await: true}` even with zero
references, and coincide with those of a descriptor differing in every other
field. -/
theorem asyncModule_module_options_spec_witness :
    mTopLevelAwait.module_options (some []) = some ⟨true⟩ ∧
      mTopLevelAwaitExt.module_options (some [7]) =
        mTopLevelAwait.module_options (some [7]) :=
  ⟨(asyncModule_module_options_spec mTopLevelAwait).2.1 [],
    (asyncModule_module_options_spec mTopLevelAwait).2.2 mTopLevelAwaitExt rfl (some [7])⟩

/-- C4: for a reference whose resolve result reports it unresolvable,
`code_generation` produces exactly one mutation — a hoisted statement
throwing a module-not-found error naming the literal import specifier — and
nothing else, for either well-formed chunking policy. -/
theorem esmReference_unresolvable_throw (r : EsmAssetReference)
    (resolver : ResolutionKey → ModuleResolveResult)
    (chunking_context : EcmascriptChunkingContext) (ct : Option ChunkingType)
    (hct : r.chunking_type = Except.ok ct)
    (hunres : (r.resolve_reference resolver).unresolveable = true) :
    r.code_generation resolver chunking_context =
      Except.ok ⟨[Stmt.throwModuleNotFound (request_to_string r.request)]⟩ := by
  simp [EsmAssetReference.code_generation, hct, hunres]

/-- C4 witness: the unresolvable reference to `"./missing"` yields exactly the
one throw mutation naming `"./missing"`. -/
theorem esmReference_unresolvable_throw_witness :
    refMissing.code_generation resolverUnresolved ctxNoExternals =
      Except.ok ⟨[Stmt.throwModuleNotFound "./missing"]⟩ :=
  esmReference_unresolvable_throw refMissing resolverUnresolved ctxNoExternals
    (some ChunkingType.ParallelInheritAsync) rfl rfl

/-- C8: an absent chunking-type annotation or `"parallel"` yields the
`ParallelInheritAsync` policy, `"none"` yields the excluded policy (no
chunking type), and any other literal fails with a configuration error
echoing that literal. -/
theorem esmReference_chunking_type_spec (r : EsmAssetReference) :
    (r.annotations.chunking_type = none →
        r.chunking_type = Except.ok (some ChunkingType.ParallelInheritAsync)) ∧
      (r.annotations.chunking_type = some "parallel" →
        r.chunking_type = Except.ok (some ChunkingType.ParallelInheritAsync)) ∧
      (r.annotations.chunking_type = some "none" →
        r.chunking_type = Except.ok none) ∧
      (∀ s, r.annotations.chunking_type = some s → s ≠ "parallel" → s ≠ "none" →
        r.chunking_type = Except.error ("unknown chunking_type: " ++ s)) := by
  refine ⟨fun h => by simp [EsmAssetReference.chunking_type, h],
    fun h => by simp [EsmAssetReference.chunking_type, h],
    fun h => by simp [EsmAssetReference.chunking_type, h],
    fun s h h1 h2 => by simp [EsmAssetReference.chunking_type, h, h1, h2]⟩

/-- C8 witness: a default-annotated reference gets `ParallelInheritAsync`; a
`"bogus"` annotation fails with a configuration error citing `"bogus"`. -/
theorem esmReference_chunking_type_spec_witness :
    refFs.chunking_type = Except.ok (some ChunkingType.ParallelInheritAsync) ∧
      refBogus.chunking_type = Except.error "unknown chunking_type: bogus" :=
  ⟨(esmReference_chunking_type_spec refFs).1 rfl,
    (esmReference_chunking_type_spec refBogus).2.2.2 "bogus" rfl
      (by decide) (by decide)⟩

/-- C9: a resolvable reference classifying as External under the
`ParallelInheritAsync` policy fails fatally — producing no mutation — with an
unsupported-feature error naming the literal request, when the chunking
context's environment lacks the external-requires capability. -/
theorem esmReference_external_no_capability (r : EsmAssetReference)
    (resolver : ResolutionKey → ModuleResolveResult)
    (chunking_context : EcmascriptChunkingContext) (req : String)
    (hct : r.chunking_type = Except.ok (some ChunkingType.ParallelInheritAsync))
    (hres : (r.resolve_reference resolver).unresolveable = false)
    (hext : ReferencedAsset.from_resolve_result (r.resolve_reference resolver) =
      ReferencedAsset.OriginalReferenceTypeExternal req)
    (hcap : chunking_context.supports_commonjs_externals = false) :
    r.code_generation resolver chunking_context =
      Except.error
        ("the chunking context does not support external modules (request: "
          ++ req ++ ")") := by
  simp [EsmAssetReference.code_generation, hct, hres, hext, hcap,
    ReferencedAsset.get_ident]

/-- C9 witness: the external `"fs"` reference under a context without the
capability fails with the unsupported-feature error naming `"fs"`. -/
theorem esmReference_external_no_capability_witness :
    refFs.code_generation resolverExternalFs ctxNoExternals =
      Except.error
        "the chunking context does not support external modules (request: fs)" :=
  esmReference_external_no_capability refFs resolverExternalFs ctxNoExternals "fs"
    rfl rfl rfl rfl

/-- C10: a primary entry holding a module handle that does not downcast to the
chunkable-module capability neither terminates the classification scan nor
forces `None`: the scan continues with the remaining entries, so a later
external marker still classifies External and a later chunkable module still
classifies Internal. -/
theorem referencedAsset_module_no_downcast_skips (key : String)
    (module : ModuleHandle) (rest : List (String × ModuleResolveResultItem))
    (hm : try_resolve_downcast module = none) :
    ReferencedAsset.fromPrimary ((key, ModuleResolveResultItem.Module module) :: rest) =
        ReferencedAsset.fromPrimary rest ∧
      (∀ key2 req,
        ReferencedAsset.fromPrimary [(key, ModuleResolveResultItem.Module module),
            (key2, ModuleResolveResultItem.OriginalReferenceTypeExternal req)] =
          ReferencedAsset.OriginalReferenceTypeExternal req) ∧
      (∀ key2 module2 placeable, try_resolve_downcast module2 = some placeable →
        ReferencedAsset.fromPrimary [(key, ModuleResolveResultItem.Module module),
            (key2, ModuleResolveResultItem.Module module2)] =
          ReferencedAsset.Some placeable) := by
  refine ⟨?_, fun key2 req => ?_, fun key2 module2 placeable hp => ?_⟩ <;>
    simp [ReferencedAsset.fromPrimary, hm, *]

/-- C5: the classifier scans the primary entries in resolver-supplied order
and honors exactly the first matching entry — External with the request
string if that entry is an external marker, Internal with the module handle
if it is a module that downcasts to the chunkable-module capability — while
ignored (and all other non-matching) entries are skipped silently, and an
exhausted scan yields the unclassified result. -/
theorem referencedAsset_classify_first_match
    (l : List (String × ModuleResolveResultItem)) :
    (l.find? isMatchEntry = none →
        ReferencedAsset.fromPrimary l = ReferencedAsset.None) ∧
      (∀ key req,
        l.find? isMatchEntry =
            some (key, ModuleResolveResultItem.OriginalReferenceTypeExternal req) →
          ReferencedAsset.fromPrimary l =
            ReferencedAsset.OriginalReferenceTypeExternal req) ∧
      (∀ key module placeable,
        l.find? isMatchEntry = some (key, ModuleResolveResultItem.Module module) →
          try_resolve_downcast module = some placeable →
          ReferencedAsset.fromPrimary l = ReferencedAsset.Some placeable) := by
  induction l with
  | nil =>
    refine ⟨fun _ => rfl, fun key req h => ?_, fun key module placeable h _ => ?_⟩ <;>
      simp at h
  | cons e rest ih =>
    obtain ⟨key0, item⟩ := e
    cases item with
    | Module module0 =>
      cases hdc : try_resolve_downcast module0 with
      | some placeable0 =>
        have hpos : isMatchEntry (key0, ModuleResolveResultItem.Module module0) = true := by
          simp [isMatchEntry, hdc]
        refine ⟨fun h => ?_, fun key req h => ?_, fun key module placeable h hp => ?_⟩
        · rw [List.find?_cons_of_pos _ hpos] at h; exact absurd h (by simp)
        · rw [List.find?_cons_of_pos _ hpos] at h
          obtain ⟨-, h2⟩ := Prod.mk.inj (Option.some.inj h)
          exact absurd h2 (by simp)
        · rw [List.find?_cons_of_pos _ hpos] at h
          obtain ⟨-, h2⟩ := Prod.mk.inj (Option.some.inj h)
          obtain rfl : module0 = module := ModuleResolveResultItem.Module.inj h2
          rw [hdc] at hp
          obtain rfl : placeable0 = placeable := Option.some.inj hp
          simp [ReferencedAsset.fromPrimary, hdc]
      | none =>
        have hneg : isMatchEntry (key0, ModuleResolveResultItem.Module module0) = false := by
          simp [isMatchEntry, hdc]
        have hfind : ((key0, ModuleResolveResultItem.Module module0) :: rest).find?
            isMatchEntry = rest.find? isMatchEntry :=
          List.find?_cons_of_neg _ (by simp [hneg])
        have hstep : ReferencedAsset.fromPrimary
            ((key0, ModuleResolveResultItem.Module module0) :: rest) =
            ReferencedAsset.fromPrimary rest := by
          simp [ReferencedAsset.fromPrimary, hdc]
        refine ⟨fun h => ?_, fun key req h => ?_, fun key module placeable h hp => ?_⟩
        · rw [hfind] at h; rw [hstep]; exact ih.1 h
        · rw [hfind] at h; rw [hstep]; exact ih.2.1 key req h
        · rw [hfind] at h; rw [hstep]; exact ih.2.2 key module placeable h hp
    | OriginalReferenceTypeExternal req0 =>
      have hpos : isMatchEntry
          (key0, ModuleResolveResultItem.OriginalReferenceTypeExternal req0) = true := rfl
      refine ⟨fun h => ?_, fun key req h => ?_, fun key module placeable h hp => ?_⟩
      · rw [List.find?_cons_of_pos _ hpos] at h; exact absurd h (by simp)
      · rw [List.find?_cons_of_pos _ hpos] at h
        obtain ⟨-, h2⟩ := Prod.mk.inj (Option.some.inj h)
        obtain rfl : req0 = req := ModuleResolveResultItem.OriginalReferenceTypeExternal.inj h2
        rfl
      · rw [List.find?_cons_of_pos _ hpos] at h
        obtain ⟨-, h2⟩ := Prod.mk.inj (Option.some.inj h)
        exact absurd h2 (by simp)
    | Ignore =>
      have hfind : ((key0, ModuleResolveResultItem.Ignore) :: rest).find? isMatchEntry =
          rest.find? isMatchEntry := List.find?_cons_of_neg _ (by simp [isMatchEntry])
      refine ⟨fun h => ?_, fun key req h => ?_, fun key module placeable h hp => ?_⟩
      · rw [hfind] at h; exact ih.1 h
      · rw [hfind] at h; exact ih.2.1 key req h
      · rw [hfind] at h; exact ih.2.2 key module placeable h hp
    | Unresolveable =>
      have hfind : ((key0, ModuleResolveResultItem.Unresolveable) :: rest).find?
          isMatchEntry = rest.find? isMatchEntry :=
        List.find?_cons_of_neg _ (by simp [isMatchEntry])
      refine ⟨fun h => ?_, fun key req h => ?_, fun key module placeable h hp => ?_⟩
      · rw [hfind] at h; exact ih.1 h
      · rw [hfind] at h; exact ih.2.1 key req h
      · rw [hfind] at h; exact ih.2.2 key module placeable h hp

/-- C5 witness: in a result whose entries are an ignored entry, a
non-chunkable module, and an external marker for `"fs"`, the first matching
entry is the external marker and classification is External `"fs"`. -/
theorem referencedAsset_classify_first_match_witness :
    ReferencedAsset.fromPrimary primaryLateExternal =
      ReferencedAsset.OriginalReferenceTypeExternal "fs" :=
  (referencedAsset_classify_first_match primaryLateExternal).2.1 "k2" "fs" (by decide)

/-- C6 counterexample: the claim's universally quantified idempotence fails
for the one statement structurally equal to the reserved marker statement:
hoisting the marker statement itself into an empty module body twice yields
three markers, not the two a single insertion yields. -/
theorem insert_hoisted_stmt_module_not_idempotent :
    insert_hoisted_stmt (insert_hoisted_stmt (Program.Module []) markerStmt)
        markerStmt ≠
      insert_hoisted_stmt (Program.Module []) markerStmt := by
  decide

/-- C6 (amended to exclude the reserved marker statement itself): for every
structured-module body and every statement not structurally equal to the
marker statement, hoisting is idempotent; with no marker present it inserts
the new statement and the marker as the first two items; with the marker
present it inserts immediately before the marker unless a structurally-equal
statement already occurs earlier (before the marker); and inserting S, S,
then a different T into an empty module body yields `[S, T, marker]`. -/
theorem insert_hoisted_stmt_module_spec (body : List ModuleItem) (stmt : Stmt)
    (hstmt : stmt ≠ markerStmt) :
    (insert_hoisted_stmt (insert_hoisted_stmt (Program.Module body) stmt) stmt =
        insert_hoisted_stmt (Program.Module body) stmt) ∧
      ((∀ item ∈ body, isMarkerModuleItem item = false) →
        insert_hoisted_stmt (Program.Module body) stmt =
          Program.Module (ModuleItem.Stmt stmt :: ModuleItem.Stmt markerStmt :: body)) ∧
      (∀ pre x post, body = pre ++ x :: post →
        (∀ item ∈ pre, isMarkerModuleItem item = false) →
        isMarkerModuleItem x = true →
        ((ModuleItem.Stmt stmt ∈ pre →
            insert_hoisted_stmt (Program.Module body) stmt = Program.Module body) ∧
          (ModuleItem.Stmt stmt ∉ pre →
            insert_hoisted_stmt (Program.Module body) stmt =
              Program.Module (pre ++ ModuleItem.Stmt stmt :: x :: post)))) ∧
      (∀ t : Stmt, t ≠ stmt →
        insert_hoisted_stmt (insert_hoisted_stmt
            (insert_hoisted_stmt (Program.Module []) stmt) stmt) t =
          Program.Module [ModuleItem.Stmt stmt, ModuleItem.Stmt t,
            ModuleItem.Stmt markerStmt]) := by
  have hstmtb : isMarkerModuleItem (ModuleItem.Stmt stmt) = false :=
    isMarkerModuleItem_stmt_false stmt hstmt
  have hmarkb : isMarkerModuleItem (ModuleItem.Stmt markerStmt) = true := by
    simp [isMarkerModuleItem, isMarkerStmt_marker]
  refine ⟨?_, ?_, ?_, ?_⟩
  · cases hpos : listPosition isMarkerModuleItem body with
    | none =>
      rw [insert_hoisted_stmt_module_none body stmt hpos]
      have hpos2 : listPosition isMarkerModuleItem
          (ModuleItem.Stmt stmt :: ModuleItem.Stmt markerStmt :: body) = some 1 := by
        simp [listPosition, hstmtb, hmarkb]
      refine insert_hoisted_stmt_module_dup _ _ _ hpos2 ?_
      simp [stmtEqItem]
    | some pos =>
      obtain ⟨htake, x, post, hx, hdrop, hdecomp⟩ :=
        listPosition_eq_some_split isMarkerModuleItem body pos hpos
      by_cases hdup : (body.take pos).any (stmtEqItem stmt) = true
      · have h1 := insert_hoisted_stmt_module_dup body stmt pos hpos hdup
        rw [h1, h1]
      · have hdupf : (body.take pos).any (stmtEqItem stmt) = false :=
          Bool.eq_false_iff.mpr hdup
        rw [insert_hoisted_stmt_module_ins body stmt pos hpos hdupf]
        have hbody2 : listInsertAt body pos (ModuleItem.Stmt stmt) =
            (body.take pos ++ [ModuleItem.Stmt stmt]) ++ x :: post := by
          simp [listInsertAt, hdrop]
        have hpos2 : listPosition isMarkerModuleItem
            (listInsertAt body pos (ModuleItem.Stmt stmt)) =
            some (body.take pos ++ [ModuleItem.Stmt stmt]).length := by
          rw [hbody2]
          refine listPosition_append _ _ _ _ (fun y hy => ?_) hx
          rcases List.mem_append.mp hy with hy | hy
          · exact htake y hy
          · rw [List.mem_singleton.mp hy]; exact hstmtb
        refine insert_hoisted_stmt_module_dup _ _ _ hpos2 ?_
        have htk : (listInsertAt body pos (ModuleItem.Stmt stmt)).take
            (body.take pos ++ [ModuleItem.Stmt stmt]).length =
            body.take pos ++ [ModuleItem.Stmt stmt] := by
          rw [hbody2]; exact List.take_left _ _
        rw [htk]
        simp [List.any_append, stmtEqItem]
  · intro hnomark
    exact insert_hoisted_stmt_module_none body stmt
      (listPosition_eq_none_of isMarkerModuleItem body hnomark)
  · intro pre x post hdecomp hpre hx
    subst hdecomp
    have hpos : listPosition isMarkerModuleItem (pre ++ x :: post) = some pre.length :=
      listPosition_append _ _ _ _ hpre hx
    have htk : (pre ++ x :: post).take pre.length = pre := List.take_left _ _
    have hdr : (pre ++ x :: post).drop pre.length = x :: post := List.drop_left _ _
    constructor
    · intro hmem
      refine insert_hoisted_stmt_module_dup _ _ _ hpos ?_
      rw [htk]
      exact (any_stmtEqItem_iff stmt pre).mpr hmem
    · intro hmem
      have hdup : ((pre ++ x :: post).take pre.length).any (stmtEqItem stmt) = false := by
        rw [htk]
        cases hb : pre.any (stmtEqItem stmt) with
        | false => rfl
        | true => exact absurd ((any_stmtEqItem_iff stmt pre).mp hb) hmem
      rw [insert_hoisted_stmt_module_ins _ _ _ hpos hdup]
      simp only [listInsertAt, htk, hdr]
  · intro t ht
    have e1 : insert_hoisted_stmt (Program.Module []) stmt =
        Program.Module [ModuleItem.Stmt stmt, ModuleItem.Stmt markerStmt] :=
      insert_hoisted_stmt_module_none [] stmt rfl
    rw [e1]
    have hpos2 : listPosition isMarkerModuleItem
        [ModuleItem.Stmt stmt, ModuleItem.Stmt markerStmt] = some 1 := by
      simp [listPosition, hstmtb, hmarkb]
    have e2 : insert_hoisted_stmt
        (Program.Module [ModuleItem.Stmt stmt, ModuleItem.Stmt markerStmt]) stmt =
        Program.Module [ModuleItem.Stmt stmt, ModuleItem.Stmt markerStmt] := by
      refine insert_hoisted_stmt_module_dup _ _ _ hpos2 ?_
      simp [stmtEqItem]
    rw [e2]
    have hdup3 : (([ModuleItem.Stmt stmt, ModuleItem.Stmt markerStmt]).take 1).any
        (stmtEqItem t) = false := by
      simp only [List.take_succ_cons, List.take_zero, List.any_cons, List.any_nil,
        stmtEqItem, Bool.or_false]
      exact decide_eq_false fun he => ht he.symm
    rw [insert_hoisted_stmt_module_ins _ _ _ hpos2 hdup3]
    rfl

/-- C6 witness: a non-marker statement hoisted twice into a body consisting of
one module declaration appears once, above the marker. -/
theorem insert_hoisted_stmt_module_spec_witness :
    insert_hoisted_stmt (insert_hoisted_stmt
        (Program.Module [ModuleItem.ModuleDecl 0]) (Stmt.other 0)) (Stmt.other 0) =
      insert_hoisted_stmt (Program.Module [ModuleItem.ModuleDecl 0]) (Stmt.other 0) :=
  (insert_hoisted_stmt_module_spec [ModuleItem.ModuleDecl 0] (Stmt.other 0)
    (by decide)).1

/-- C7: on a flat-script body the hoist inserts `[stmt, marker]` at the front
when the marker is absent, and inserts at the marker's position with no
duplicate check when it is present — so inserting the same statement twice
into a script whose marker is present yields two copies. -/
theorem insert_hoisted_stmt_script_spec (body : List Stmt) (stmt : Stmt) :
    ((∀ s ∈ body, isMarkerStmt s = false) →
        insert_hoisted_stmt (Program.Script body) stmt =
          Program.Script (stmt :: markerStmt :: body)) ∧
      (∀ pre x post, body = pre ++ x :: post →
        (∀ s ∈ pre, isMarkerStmt s = false) → isMarkerStmt x = true →
        (insert_hoisted_stmt (Program.Script body) stmt =
            Program.Script (pre ++ stmt :: x :: post) ∧
          insert_hoisted_stmt (insert_hoisted_stmt (Program.Script body) stmt) stmt =
            Program.Script (pre ++ stmt :: stmt :: x :: post))) := by
  constructor
  · intro hnomark
    exact insert_hoisted_stmt_script_none body stmt
      (listPosition_eq_none_of isMarkerStmt body hnomark)
  · intro pre x post hdecomp hpre hx
    subst hdecomp
    have hpos : listPosition isMarkerStmt (pre ++ x :: post) = some pre.length :=
      listPosition_append _ _ _ _ hpre hx
    have htk : (pre ++ x :: post).take pre.length = pre := List.take_left _ _
    have hdr : (pre ++ x :: post).drop pre.length = x :: post := List.drop_left _ _
    have h1 : insert_hoisted_stmt (Program.Script (pre ++ x :: post)) stmt =
        Program.Script (pre ++ stmt :: x :: post) := by
      rw [insert_hoisted_stmt_script_pos _ _ _ hpos]
      simp only [listInsertAt, htk, hdr]
    refine ⟨h1, ?_⟩
    rw [h1]
    cases hms : isMarkerStmt stmt with
    | true =>
      have hpos2 : listPosition isMarkerStmt (pre ++ stmt :: x :: post) =
          some pre.length := listPosition_append _ _ _ _ hpre hms
      have htk2 : (pre ++ stmt :: x :: post).take pre.length = pre :=
        List.take_left _ _
      have hdr2 : (pre ++ stmt :: x :: post).drop pre.length = stmt :: x :: post :=
        List.drop_left _ _
      rw [insert_hoisted_stmt_script_pos _ _ _ hpos2]
      simp only [listInsertAt, htk2, hdr2]
    | false =>
      have hsplit : pre ++ stmt :: x :: post = (pre ++ [stmt]) ++ x :: post := by
        simp
      have hpos2 : listPosition isMarkerStmt (pre ++ stmt :: x :: post) =
          some (pre ++ [stmt]).length := by
        rw [hsplit]
        refine listPosition_append _ _ _ _ (fun y hy => ?_) hx
        rcases List.mem_append.mp hy with hy | hy
        · exact hpre y hy
        · rw [List.mem_singleton.mp hy]; exact hms
      have htk2 : (pre ++ stmt :: x :: post).take (pre ++ [stmt]).length =
          pre ++ [stmt] := by
        rw [hsplit]; exact List.take_left _ _
      have hdr2 : (pre ++ stmt :: x :: post).drop (pre ++ [stmt]).length =
          x :: post := by
        rw [hsplit]; exact List.drop_left _ _
      rw [insert_hoisted_stmt_script_pos _ _ _ hpos2]
      simp only [listInsertAt, htk2, hdr2]
      simp

/-- C7 witness: inserting a statement twice into the script `[marker]` yields
two copies before the marker, with no duplicate check. -/
theorem insert_hoisted_stmt_script_spec_witness :
    insert_hoisted_stmt (Program.Script [markerStmt]) (Stmt.other 0) =
        Program.Script [Stmt.other 0, markerStmt] ∧
      insert_hoisted_stmt (insert_hoisted_stmt (Program.Script [markerStmt])
          (Stmt.other 0)) (Stmt.other 0) =
        Program.Script [Stmt.other 0, Stmt.other 0, markerStmt] :=
  (insert_hoisted_stmt_script_spec [markerStmt] (Stmt.other 0)).2 [] markerStmt []
    rfl (by simp) (by simp [isMarkerStmt_marker])

/-- C10 witness: a non-downcastable module entry followed by an external
marker classifies External. -/
theorem referencedAsset_module_no_downcast_skips_witness :
    ReferencedAsset.fromPrimary [("k1", ModuleResolveResultItem.Module ⟨none⟩),
        ("k2", ModuleResolveResultItem.OriginalReferenceTypeExternal "fs")] =
      ReferencedAsset.OriginalReferenceTypeExternal "fs" :=
  (referencedAsset_module_no_downcast_skips "k1" ⟨none⟩
      [("k2", ModuleResolveResultItem.OriginalReferenceTypeExternal "fs")] rfl).2.1
    "k2" "fs"

end Turbo
